import Mathlib

/-!
Verification development for the GPU mechanism instantiation and memory
layout packer of src/arbor/backends/gpu/mechanism.cpp.

Modelling conventions:
- double values (arb_value_type) are modelled as rationals;
- device buffers are lists of optional cells, where none stands for a cell
  that was never written (the NAN fill of the value buffer, respectively the
  uninitialized cells of the index buffer);
- device pointers into a buffer are modelled as element offsets from the
  base of that buffer; pointers into shared-state arrays are modelled as
  abstract numeric address tags supplied by the SharedState record;
- host pointer fields that may never be assigned are Option valued, with
  none standing for a pointer that instantiate never set;
- the two fatal construction errors thrown by instantiate are the
  constructors of ArbError, in place of the arbor_internal_error messages
  of the source.
-/

namespace ArborGpu

/-- Schema entry for a parameter, state variable or global: a name and a
default value (mechanism_field_table entries in the source). -/
structure SchemaEntry where
  name : String
  default_value : ℚ
deriving DecidableEq, Inhabited

/-- Declared ion of the mechanism schema (mech_.ions entries; only the name
is read by mechanism.cpp). -/
structure IonDep where
  name : String
deriving DecidableEq, Inhabited

/-- The mechanism descriptor mech_: ordered parameter, state variable,
global and ion declarations. The counts n_parameters, n_state_vars,
n_globals, n_ions of the source are the lengths of these lists. -/
structure MechDesc where
  parameters : List SchemaEntry
  state_vars : List SchemaEntry
  globals : List SchemaEntry
  ions : List IonDep
deriving DecidableEq, Inhabited

/-- One ion of the shared state (ion_state in the source): the five
device arrays are abstract address tags, node_index is the host copy of
the per-ion site index list (memory::on_host(oion.node_index_)). -/
structure IonShared where
  iX : Nat
  eX : Nat
  Xi : Nat
  Xo : Nat
  charge : Nat
  node_index : List Int
deriving DecidableEq, Inhabited

/-- The cell-group shared state, restricted to the fields mechanism.cpp
reads: the per-site array base addresses handed to the parameter pack and
the name-keyed ion map. -/
structure SharedState where
  cv_to_cell : Nat
  cv_to_intdom : Nat
  dt_cv : Nat
  voltage : Nat
  current_density : Nat
  conductivity : Nat
  temperature_degC : Nat
  diam_um : Nat
  time_since_spike : Nat
  n_detector : Nat
  ion_data : List (String × IonShared)
deriving DecidableEq, Inhabited

/-- mechanism_overrides: global value overrides and ion rebindings. The
source maps iterate in key order; the claims settled here do not depend on
the iteration order, so association lists are used. -/
structure MechOverrides where
  globals : List (String × ℚ)
  ion_rebind : List (String × String)
deriving DecidableEq, Inhabited

/-- mechanism_layout pos_data: site indices, per-site weights and per-site
multiplicities of the placement. -/
structure MechLayout where
  cv : List Int
  weight : List ℚ
  multiplicity : List Int
deriving DecidableEq, Inhabited

/-- Modelled from the spec: the arb_ion_state record held in ion_states_h_
is declared in a header that is not part of src/. Its pointer slots, in
declaration order, are the current density, reversal potential, internal
concentration, external concentration and ionic charge arrays, followed by
the per-mechanism ion index; the aggregate initialization at line 94 of
mechanism.cpp fills the first five slots in that order from the bound ion
(iX_, eX_, Xi_, Xo_, charge) and leaves the index slot unset. The spec
names the five pointers this component uses: current density,
internal/external concentration, charge, index. -/
structure ArbIonState where
  current_density : Nat
  reversal_potential : Nat
  internal_concentration : Nat
  external_concentration : Nat
  ionic_charge : Nat
  index : Option Nat
deriving DecidableEq, Inhabited

/-- The parameter pack ppack_. Shared-state members are address tags;
pointers into the value and index buffers are offsets, none when
instantiate never assigned them. The three device table pointers are
modelled by presence (some means the corresponding device mirror was
created and its address stored). -/
structure MechPpack where
  width : Nat
  mechanism_id : Nat
  vec_ci : Nat
  vec_di : Nat
  vec_dt : Nat
  vec_v : Nat
  vec_i : Nat
  vec_g : Nat
  temperature_degC : Nat
  diam_um : Nat
  time_since_spike : Nat
  n_detectors : Nat
  weight : Option Nat
  node_index : Option Nat
  multiplicity : Option Nat
  globals : Option Nat
  parameters : Option Unit
  state_vars : Option Unit
  ion_states : Option Unit
deriving DecidableEq, Inhabited

/-- The mechanism instance after instantiate: the packed buffers, the host
pointer tables, the device mirrors (none when never created) and the
parameter pack. -/
structure Mechanism where
  mech : MechDesc
  width : Nat
  width_padded : Nat
  mult_in_place : Bool
  num_ions : Nat
  data : List (Option ℚ)
  indices : List (Option Int)
  parameters_h : List (Option Nat)
  state_vars_h : List (Option Nat)
  globals_h : List (Option ℚ)
  ion_states_h : List ArbIonState
  parameters_d : Option (List (Option Nat))
  state_vars_d : Option (List (Option Nat))
  ion_states_d : Option (List ArbIonState)
  ppack : MechPpack
deriving DecidableEq, Inhabited

/-- The two fatal construction errors of mechanism::instantiate:
missingIon stands for the arbor_internal_error with message
"gpu/mechanism: mechanism holds ion with no corresponding shared state"
(lines 93 and 160), noSuchGlobal k for the arbor_internal_error with
message "gpu/mechanism: no such mechanism global k" (line 137). -/
inductive ArbError where
  | missingIon : ArbError
  | noSuchGlobal : String → ArbError
deriving DecidableEq, Inhabited

/-- Modelled from the spec: math::round_up (arbor/math.hpp, not under
src/) returns the smallest multiple of b that is greater than or equal
to v (spec section 8, padding invariant). -/
def round_up (v b : Nat) : Nat :=
  if v % b = 0 then v else v + (b - v % b)

/-- util::value_by_key and util::ptr_by_key: name-keyed map lookup. -/
def value_by_key (m : List (String × α)) (k : String) : Option α :=
  m.lookup k

/-- Ion name resolution (lines 91 and 158):
value_by_key(overrides.ion_rebind, ion).value_or(ion). -/
def resolveIonName (rebind : List (String × String)) (ion : String) : String :=
  (value_by_key rebind ion).getD ion

/-- Copy a source list element by element into a buffer starting at a given
offset (the transfer performed by memory::copy and memory::fill onto a
device_view; out-of-range cells are silently dropped by List.set, the
bounds claims are settled by offset arithmetic). -/
def writeVals : List β → Nat → List β → List β
  | buf, _, [] => buf
  | buf, off, x :: xs => writeVals (buf.set off x) (off + 1) xs

/-- The append_chunk lambda of instantiate (lines 100-104): copy width
elements of the source into the buffer at the cursor, record the cursor as
the field view, then advance the cursor by width (the lambda captures
n = width_ and performs ptr += n). Returns (buffer, recorded offset, new
cursor). -/
def appendChunk (n : Nat) (src : List α) (buf : List (Option α)) (ptr : Nat) :
    List (Option α) × Nat × Nat :=
  (writeVals buf ptr ((src.take n).map some), ptr, ptr + n)

/-- The append_const lambda of instantiate (lines 106-110): fill width
cells with one value, same bookkeeping as appendChunk. -/
def appendConst (n : Nat) (v : α) (buf : List (Option α)) (ptr : Nat) :
    List (Option α) × Nat × Nat :=
  (writeVals buf ptr (List.replicate n (some v)), ptr, ptr + n)

/-- The loops at lines 121-126: one append_const per schema entry, in
order, collecting the recorded view offsets. -/
def appendConsts (n : Nat) : List α → List (Option α) → Nat →
    List (Option α) × List (Option Nat) × Nat
  | [], buf, ptr => (buf, [], ptr)
  | v :: vs, buf, ptr =>
    let r := appendConst n v buf ptr
    let rest := appendConsts n vs r.1 r.2.2
    (rest.1, some r.2.1 :: rest.2.1, rest.2.2)

/-- The ion-view loop of instantiate (lines 89-95): resolve each declared
ion name through the rebind table, look it up in shared ion data, and
record its five array addresses; a failed lookup is the missing-ion
error. -/
def bindIons (rebind : List (String × String)) (ion_data : List (String × IonShared)) :
    List IonDep → Except ArbError (List ArbIonState)
  | [] => .ok []
  | ion :: rest =>
    match value_by_key ion_data (resolveIonName rebind ion.name) with
    | none => .error .missingIon
    | some oion => do
      let tail ← bindIons rebind ion_data rest
      .ok ({ current_density := oion.iX, reversal_potential := oion.eX,
             internal_concentration := oion.Xi, external_concentration := oion.Xo,
             ionic_charge := oion.charge, index := none } :: tail)

/-- The inner scan of the global override loop (lines 130-138), translated
with its control flow intact: walk the schema global names; on an exact
name match set that slot and stop (found = true; break); otherwise the
check if (not found) throw sits inside the loop body and fires
immediately; the recursive continuation after it is therefore dead except
when the name list is empty. -/
def overrideScan (names : List String) (idx : Nat) (found : Bool)
    (gh : List (Option ℚ)) (k : String) (v : ℚ) : Except ArbError (List (Option ℚ)) :=
  match names with
  | [] => .ok gh
  | nm :: rest =>
    if nm = k then .ok (gh.set idx (some v))
    else if !found then .error (.noSuchGlobal k)
    else overrideScan rest (idx + 1) found gh k v

/-- The outer override loop (line 129): apply overrideScan for each
override entry in turn, each scan starting at index 0 with found =
false. -/
def applyGlobalOverrides (gnames : List String) :
    List (String × ℚ) → List (Option ℚ) → Except ArbError (List (Option ℚ))
  | [], gh => .ok gh
  | (k, v) :: rest, gh => do
    let gh2 ← overrideScan gnames 0 false gh k v
    applyGlobalOverrides gnames rest gh2

/-- Result of the value-buffer block of instantiate (lines 113-143). -/
structure ValueStageOut where
  data : List (Option ℚ)
  weight_ptr : Nat
  parameters_h : List (Option Nat)
  state_vars_h : List (Option Nat)
  globals_h : List (Option ℚ)
  globals_ptr : Nat
deriving DecidableEq, Inhabited

/-- The value-buffer block of instantiate (lines 113-143): allocate
(n_state_vars + n_parameters + 1) * width_padded + n_globals NAN cells,
append the weight chunk, one constant chunk per parameter default, one per
state-variable default, resolve the globals with their overrides, and copy
the n_globals resolved scalars at the cursor. -/
def valueStage (mech : MechDesc) (ovs : List (String × ℚ)) (weight : List ℚ)
    (width width_padded : Nat) : Except ArbError ValueStageOut := do
  let count := (mech.state_vars.length + mech.parameters.length + 1) * width_padded
      + mech.globals.length
  let data0 : List (Option ℚ) := List.replicate count none
  let r1 := appendChunk width weight data0 0
  let r2 := appendConsts width (mech.parameters.map (·.default_value)) r1.1 r1.2.2
  let r3 := appendConsts width (mech.state_vars.map (·.default_value)) r2.1 r2.2.2
  let gh0 := mech.globals.map (fun e => (some e.default_value : Option ℚ))
  let gh ← applyGlobalOverrides (mech.globals.map (·.name)) ovs gh0
  .ok { data := writeVals r3.1 r3.2.2 gh, weight_ptr := r1.2.1,
        parameters_h := r2.2.1, state_vars_h := r3.2.1,
        globals_h := gh, globals_ptr := r3.2.2 }

/-- Modelled from the spec: util::index_into (util/index_into.hpp, not
under src/). Given needle sequence a and haystack sequence b, produce for
each element of a its position in b (spec section 4.1); positions are
first occurrences. -/
def index_into (a b : List Int) : List Nat :=
  a.map (fun x => b.indexOf x)

/-- The ion index loop of instantiate (lines 154-166): per declared ion,
resolve the rebinding, look the resolved name up in shared state (missing
is fatal), join the placement sites against the ion node index list with
index_into, and append the joined chunk, collecting the recorded
offsets. -/
def ionIndexLoop (rebind : List (String × String)) (ion_data : List (String × IonShared))
    (cv : List Int) (width : Nat) :
    List IonDep → List (Option Int) → Nat →
    Except ArbError (List (Option Int) × List Nat × Nat)
  | [], buf, ptr => .ok (buf, [], ptr)
  | ion :: rest, buf, ptr =>
    match value_by_key ion_data (resolveIonName rebind ion.name) with
    | none => .error .missingIon
    | some oion =>
      let mech_ion_index : List Int := (index_into cv oion.node_index).map Int.ofNat
      let r := appendChunk width mech_ion_index buf ptr
      do
        let rest2 ← ionIndexLoop rebind ion_data cv width rest r.1 r.2.2
        .ok (rest2.1, r.2.1 :: rest2.2.1, rest2.2.2)

/-- Result of the index-buffer block of instantiate (lines 145-169). -/
structure IndexStageOut where
  indices : List (Option Int)
  node_ptr : Nat
  ion_ptrs : List Nat
  mult_ptr : Option Nat
deriving DecidableEq, Inhabited

/-- The index-buffer block of instantiate (lines 145-169): allocate
((1 if multiplicities are used else 0) + n_ions + 1) * width_padded cells,
append the node index chunk, the per-ion joined index chunks, and, when
multiplicities are used, the multiplicity chunk. -/
def indexStage (mech : MechDesc) (rebind : List (String × String))
    (ion_data : List (String × IonShared)) (cv multiplicity : List Int)
    (width width_padded : Nat) (mult_in_place : Bool) : Except ArbError IndexStageOut := do
  let count := (if mult_in_place then 1 else 0) + mech.ions.length + 1
  let idx0 : List (Option Int) := List.replicate (count * width_padded) none
  let r1 := appendChunk width cv idx0 0
  let rest ← ionIndexLoop rebind ion_data cv width mech.ions r1.1 r1.2.2
  if mult_in_place then
    let r2 := appendChunk width multiplicity rest.1 rest.2.2
    .ok { indices := r2.1, node_ptr := r1.2.1, ion_ptrs := rest.2.1,
          mult_ptr := some r2.2.1 }
  else
    .ok { indices := rest.1, node_ptr := r1.2.1, ion_ptrs := rest.2.1, mult_ptr := none }

/-- mechanism::instantiate (lines 57-199). Sets the internal scalars and
shared-state views, binds the declared ions, returns early when width is
zero, otherwise runs the value-buffer and index-buffer blocks, stores the
per-ion index offsets into the ion records, creates the device mirrors of
the three host tables and records their presence in the parameter pack.
The alignment argument stands for max(array::alignment(),
iarray::alignment()). -/
def instantiate (id : Nat) (shared : SharedState) (overrides : MechOverrides)
    (pos_data : MechLayout) (mech : MechDesc) (alignment : Nat) :
    Except ArbError Mechanism := do
  let mult_in_place := !pos_data.multiplicity.isEmpty
  let width := pos_data.cv.length
  let num_ions := mech.ions.length
  let width_padded := round_up width alignment
  let ppack0 : MechPpack :=
    { width := width, mechanism_id := id,
      vec_ci := shared.cv_to_cell, vec_di := shared.cv_to_intdom,
      vec_dt := shared.dt_cv, vec_v := shared.voltage,
      vec_i := shared.current_density, vec_g := shared.conductivity,
      temperature_degC := shared.temperature_degC, diam_um := shared.diam_um,
      time_since_spike := shared.time_since_spike, n_detectors := shared.n_detector,
      weight := none, node_index := none, multiplicity := none, globals := none,
      parameters := none, state_vars := none, ion_states := none }
  let ion_states ← bindIons overrides.ion_rebind shared.ion_data mech.ions
  if width = 0 then
    .ok { mech := mech, width := width, width_padded := width_padded,
          mult_in_place := mult_in_place, num_ions := num_ions,
          data := [], indices := [],
          parameters_h := List.replicate mech.parameters.length none,
          state_vars_h := List.replicate mech.state_vars.length none,
          globals_h := List.replicate mech.globals.length none,
          ion_states_h := ion_states,
          parameters_d := none, state_vars_d := none, ion_states_d := none,
          ppack := ppack0 }
  else do
    let vs ← valueStage mech overrides.globals pos_data.weight width width_padded
    let ix ← indexStage mech overrides.ion_rebind shared.ion_data pos_data.cv
        pos_data.multiplicity width width_padded mult_in_place
    let ion_states2 := List.zipWith
        (fun st ptr => { st with index := some ptr }) ion_states ix.ion_ptrs
    .ok { mech := mech, width := width, width_padded := width_padded,
          mult_in_place := mult_in_place, num_ions := num_ions,
          data := vs.data, indices := ix.indices,
          parameters_h := vs.parameters_h, state_vars_h := vs.state_vars_h,
          globals_h := vs.globals_h, ion_states_h := ion_states2,
          parameters_d := some vs.parameters_h,
          state_vars_d := some vs.state_vars_h,
          ion_states_d := some ion_states2,
          ppack := { ppack0 with
            weight := some vs.weight_ptr, globals := some vs.globals_ptr,
            node_index := some ix.node_ptr, multiplicity := ix.mult_ptr,
            parameters := some (), state_vars := some (), ion_states := some () } }

/-- The view record returned per ion by mechanism::ion_table. -/
structure IonStateView where
  current_density : Nat
  external_concentration : Nat
  internal_concentration : Nat
  ionic_charge : Nat
deriving DecidableEq, Inhabited

/-- mechanism::global_table (lines 230-236): resolved global values keyed
by schema global name, in schema order. -/
def global_table (m : Mechanism) : List (String × Option ℚ) :=
  List.zipWith (fun e v => (e.name, v)) m.mech.globals m.globals_h

/-- mechanism::ion_table (lines 246-257): one entry per declared ion,
keyed by the declared name. The view copies the slots of the stored ion
record exactly as the source does: its external_concentration slot is
assigned from the internal_concentration slot of the record and its
internal_concentration slot from the external_concentration slot (lines
251-252); the entry is paired with the stored ion index pointer. -/
def ion_table (m : Mechanism) : List (String × IonStateView × Option Nat) :=
  List.zipWith
    (fun ion st =>
      (ion.name,
       ({ current_density := st.current_density,
          external_concentration := st.internal_concentration,
          internal_concentration := st.external_concentration,
          ionic_charge := st.ionic_charge } : IonStateView),
       st.index))
    m.mech.ions m.ion_states_h

/-- Multiplication of a value cell by an index cell: NAN (none) absorbs,
matching double arithmetic with the NAN fill. -/
def omul (x : Option ℚ) (m : Option Int) : Option ℚ :=
  match x, m with
  | some a, some b => some (a * (b : ℚ))
  | _, _ => none

/-- Pointwise worker for multiply_in_place: cell j of the traversed list
sits at absolute position i + j; it is scaled by the multiplicity cell
p + (position - s) exactly when its position lies in [s, s + n). -/
def scaleFrom (s p n : Nat) (idxs : List (Option Int)) :
    Nat → List (Option ℚ) → List (Option ℚ)
  | _, [] => []
  | i, x :: xs =>
    (if s ≤ i ∧ i < s + n then omul x (idxs.getD (p + (i - s)) none) else x)
      :: scaleFrom s p n idxs (i + 1) xs

/-- Modelled from the spec: the multiply_in_place kernel (declared at line
259, defined in CUDA code not under src/) scales s[i] by p[i] for every
i < n, data parallel over the n sites. Here s and p are offsets into the
value and index buffers. -/
def multiply_in_place (data : List (Option ℚ)) (s : Nat)
    (idxs : List (Option Int)) (p : Nat) (n : Nat) : List (Option ℚ) :=
  scaleFrom s p n idxs 0 data

/-- The multiplicity scaling step of mechanism::initialize (lines
264-267): when mult_in_place_ is set, run multiply_in_place over every
state-variable field with the multiplicity chunk and the instance
width. -/
def init_mult_step (m : Mechanism) : Mechanism :=
  if !m.mult_in_place then m
  else { m with
    data := m.state_vars_h.foldl
      (fun d sOff =>
        multiply_in_place d (sOff.getD 0) m.indices (m.ppack.multiplicity.getD 0)
          m.ppack.width)
      m.data }

/-- mechanism::initialize (lines 261-268). The clock refresh
(set_time_ptr) touches no modelled state; the code-generated
initialization kernel iface_.init_mechanism is an external collaborator
(spec section 4.4) and is modelled as an arbitrary transformation of the
value buffer; the multiplicity scaling step follows it. -/
def mechanism_init (init_kernel : List (Option ℚ) → List (Option ℚ))
    (m : Mechanism) : Mechanism :=
  init_mult_step { m with data := init_kernel m.data }

/-! Concrete fixtures used by witnesses and counterexamples. -/

/-- Shared state fixture with no ions and zeroed array addresses. -/
def sharedEmpty : SharedState := ⟨0, 0, 0, 0, 0, 0, 0, 0, 0, 0, []⟩

/-- Empty override set. -/
def ovEmpty : MechOverrides := ⟨[], []⟩

/-- One parameter, one state variable, no globals, no ions. -/
def mechC1 : MechDesc := ⟨[⟨"p", 7⟩], [⟨"s", 9⟩], [], []⟩

/-- Placement on three sites. -/
def layC1 : MechLayout := ⟨[0, 1, 2], [1, 1, 1], []⟩

/-- The instance built for mechC1 on three sites with alignment 4. -/
def mC1 : Mechanism := ((instantiate 0 sharedEmpty ovEmpty layC1 mechC1 4).toOption).getD default

/-- Two globals a and b with defaults 1 and 2. -/
def mechC2 : MechDesc := ⟨[], [], [⟨"a", 1⟩, ⟨"b", 2⟩], []⟩

/-- Placement on a single site. -/
def layW1 : MechLayout := ⟨[0], [1], []⟩

/-- Override set assigning 5 to global b. -/
def ovC2 : MechOverrides := ⟨[(("b"), 5)], []⟩

/-- One parameter, empty site sequence target. -/
def mechC4 : MechDesc := ⟨[⟨"p", 7⟩], [], [], []⟩

/-- Empty placement (width zero). -/
def layC4 : MechLayout := ⟨[], [], []⟩

/-- The instance built for mechC4 with width zero. -/
def mC4 : Mechanism := ((instantiate 0 sharedEmpty ovEmpty layC4 mechC4 1).toOption).getD default

/-- A shared-state ion with five distinct array address tags. -/
def ionCa : IonShared := ⟨1, 2, 3, 4, 5, [0]⟩

/-- Shared state holding the single ion ca. -/
def sharedC5 : SharedState := ⟨0, 0, 0, 0, 0, 0, 0, 0, 0, 0, [(("ca"), ionCa)]⟩

/-- A mechanism declaring the single ion x. -/
def mechC5 : MechDesc := ⟨[], [], [], [⟨"x"⟩]⟩

/-- Override set rebinding ion x to ca. -/
def ovC5 : MechOverrides := ⟨[], [(("x"), ("ca"))]⟩

/-- The instance built for mechC5 with x rebound to ca. -/
def mC5 : Mechanism := ((instantiate 0 sharedC5 ovC5 layW1 mechC5 1).toOption).getD default

/-- One state variable, no parameters. -/
def mechC7 : MechDesc := ⟨[], [⟨"s", 9⟩], [], []⟩

/-- Single site with multiplicity 3. -/
def layC7 : MechLayout := ⟨[0], [1], [3]⟩

/-- The instance built for mechC7 on one site with multiplicity 3. -/
def mC7 : Mechanism := ((instantiate 0 sharedEmpty ovEmpty layC7 mechC7 1).toOption).getD default

/-- A stand-in initialization kernel: leaves the weight chunk at 1 and
writes post-init value 5 into the single state-variable cell. -/
def kerC7 : List (Option ℚ) → List (Option ℚ) := fun _ => [some 1, some 5]

/-- A schema with no globals at all. -/
def mechC10 : MechDesc := ⟨[], [], [], []⟩

/-- Override set naming the global c, which no schema declares. -/
def ovC10 : MechOverrides := ⟨[(("c"), 9)], []⟩

/-! Basic lemmas about the buffer primitives. -/

theorem le_round_up (v b : Nat) : v ≤ round_up v b := by
  unfold round_up
  split
  · exact Nat.le_refl v
  · exact Nat.le_add_right v _

theorem writeVals_length (src buf : List β) (off : Nat) :
    (writeVals buf off src).length = buf.length := by
  induction src generalizing buf off with
  | nil => rfl
  | cons x xs ih =>
    show (writeVals (buf.set off x) (off + 1) xs).length = buf.length
    rw [ih, List.length_set]

theorem writeVals_getD_out (src buf : List β) (off i : Nat) (d : β)
    (h : i < off ∨ off + src.length ≤ i) :
    (writeVals buf off src).getD i d = buf.getD i d := by
  induction src generalizing buf off with
  | nil => rfl
  | cons x xs ih =>
    show (writeVals (buf.set off x) (off + 1) xs).getD i d = buf.getD i d
    simp only [List.length_cons] at h
    rw [ih (buf.set off x) (off + 1) (by omega)]
    have hne : off ≠ i := by omega
    simp [List.getD_eq_getElem?_getD, List.getElem?_set_ne hne]

theorem writeVals_getD_in (src buf : List β) (off j : Nat) (d : β)
    (hj : j < src.length) (hb : off + j < buf.length) :
    (writeVals buf off src).getD (off + j) d = src.getD j d := by
  induction src generalizing buf off j with
  | nil => simp at hj
  | cons x xs ih =>
    show (writeVals (buf.set off x) (off + 1) xs).getD (off + j) d = _
    cases j with
    | zero =>
      rw [writeVals_getD_out xs _ _ _ _ (Or.inl (by omega))]
      have hlt : off < buf.length := by omega
      simp [List.getD_eq_getElem?_getD, List.getElem?_set_eq_of_lt x hlt]
    | succ j' =>
      have hstep := ih (buf.set off x) (off + 1) j'
        (by simp only [List.length_cons] at hj; omega)
        (by rw [List.length_set]; omega)
      have harith : off + (j' + 1) = off + 1 + j' := by omega
      rw [harith, hstep]
      rfl

theorem getD_replicate (v : β) (n j : Nat) (d : β) (hj : j < n) :
    (List.replicate n v).getD j d = v := by
  rw [List.getD_eq_getElem _ _ (by simpa using hj)]
  simp

theorem getD_map_some (l : List β) (j : Nat) (d0 : β) (hj : j < l.length) :
    (l.map some).getD j none = some (l.getD j d0) := by
  rw [List.getD_eq_getElem _ _ (by simpa using hj), List.getD_eq_getElem _ _ hj]
  simp

theorem getD_take (l : List β) (n j : Nat) (d : β) (hj : j < n) (hl : j < l.length) :
    (l.take n).getD j d = l.getD j d := by
  rw [List.getD_eq_getElem _ _ (by simp; omega), List.getD_eq_getElem _ _ hl]
  simp

theorem getD_zipWith (f : α → β → γ) (as : List α) (bs : List β) (k : Nat)
    (d : γ) (da : α) (db : β) (ha : k < as.length) (hb : k < bs.length) :
    (List.zipWith f as bs).getD k d = f (as.getD k da) (bs.getD k db) := by
  rw [List.getD_eq_getElem _ _ (by simp; omega), List.getD_eq_getElem _ _ ha,
    List.getD_eq_getElem _ _ hb]
  simp

theorem appendConsts_spec (n : Nat) (vs : List α) (buf : List (Option α)) (ptr : Nat) :
    (appendConsts n vs buf ptr).2.1
        = (List.range vs.length).map (fun k => some (ptr + k * n)) ∧
      (appendConsts n vs buf ptr).2.2 = ptr + vs.length * n ∧
      (appendConsts n vs buf ptr).1.length = buf.length := by
  induction vs generalizing buf ptr with
  | nil => simp [appendConsts]
  | cons v vs ih =>
    obtain ⟨h1, h2, h3⟩ := ih (writeVals buf ptr (List.replicate n (some v))) (ptr + n)
    simp only [appendConsts, appendConst]
    refine ⟨?_, ?_, ?_⟩
    · rw [h1, List.length_cons, List.range_succ_eq_map, List.map_cons, List.map_map]
      refine congrArg₂ _ (by simp) (List.map_congr_left ?_)
      intro k _
      simp only [Function.comp_apply, Nat.succ_mul]
      congr 1
      omega
    · rw [h2, List.length_cons, Nat.succ_mul]
      omega
    · rw [h3, writeVals_length]

theorem map_zipWith_index (sts : List ArbIonState) (ptrs : List Nat)
    (h : sts.length = ptrs.length) :
    (List.zipWith (fun st ptr => { st with index := some ptr }) sts ptrs).map
        ArbIonState.index = ptrs.map some := by
  induction sts generalizing ptrs with
  | nil =>
    cases ptrs with
    | nil => rfl
    | cons p ps => simp at h
  | cons s ss ih =>
    cases ptrs with
    | nil => simp at h
    | cons p ps =>
      simp only [List.zipWith_cons_cons, List.map_cons]
      rw [ih ps (by simpa using h)]

/-! Lemmas about the ion binding loop (lines 89-95). -/

theorem bindIons_ok_length (rebind : List (String × String))
    (ion_data : List (String × IonShared)) :
    ∀ (ions : List IonDep) (sts : List ArbIonState),
      bindIons rebind ion_data ions = .ok sts → sts.length = ions.length := by
  intro ions
  induction ions with
  | nil =>
    intro sts h
    simp only [bindIons] at h
    cases h
    rfl
  | cons ion rest ih =>
    intro sts h
    simp only [bindIons] at h
    cases hv : value_by_key ion_data (resolveIonName rebind ion.name) with
    | none => rw [hv] at h; cases h
    | some oion =>
      rw [hv] at h
      cases hr : bindIons rebind ion_data rest with
      | error e =>
        rw [hr] at h
        simp only [bind, Except.bind] at h
        exact Except.noConfusion h
      | ok tail =>
        rw [hr] at h
        simp only [bind, Except.bind] at h
        cases h
        simp [ih tail hr]

theorem bindIons_ok_resolved (rebind : List (String × String))
    (ion_data : List (String × IonShared)) :
    ∀ (ions : List IonDep) (sts : List ArbIonState),
      bindIons rebind ion_data ions = .ok sts →
      ∀ ion ∈ ions, value_by_key ion_data (resolveIonName rebind ion.name) ≠ none := by
  intro ions
  induction ions with
  | nil => intro sts _ ion hmem; cases hmem
  | cons ion rest ih =>
    intro sts h i hmem
    simp only [bindIons] at h
    cases hv : value_by_key ion_data (resolveIonName rebind ion.name) with
    | none => rw [hv] at h; cases h
    | some oion =>
      rw [hv] at h
      cases hr : bindIons rebind ion_data rest with
      | error e =>
        rw [hr] at h
        simp only [bind, Except.bind] at h
        exact Except.noConfusion h
      | ok tail =>
        cases hmem with
        | head => rw [hv]; exact fun hc => Option.noConfusion hc
        | tail _ hm => exact ih tail hr i hm

theorem bindIons_error_iff (rebind : List (String × String))
    (ion_data : List (String × IonShared)) :
    ∀ (ions : List IonDep) (e : ArbError),
      bindIons rebind ion_data ions = .error e ↔
      (e = .missingIon ∧
        ∃ ion ∈ ions, value_by_key ion_data (resolveIonName rebind ion.name) = none) := by
  intro ions
  induction ions with
  | nil =>
    intro e
    simp [bindIons]
  | cons ion rest ih =>
    intro e
    simp only [bindIons]
    cases hv : value_by_key ion_data (resolveIonName rebind ion.name) with
    | none =>
      constructor
      · intro h
        cases h
        exact ⟨rfl, ion, List.mem_cons_self ion rest, hv⟩
      · intro ⟨he, _⟩
        rw [he]
    | some oion =>
      cases hr : bindIons rebind ion_data rest with
      | error e2 =>
        simp only [bind, Except.bind]
        constructor
        · intro h
          cases h
          obtain ⟨he, i, hm, hl⟩ := (ih e).1 hr
          exact ⟨he, i, List.mem_cons_of_mem ion hm, hl⟩
        · intro ⟨he, i, hm, hl⟩
          cases hm with
          | head => rw [hl] at hv; cases hv
          | tail _ hm2 =>
            have : bindIons rebind ion_data rest = .error e := (ih e).2 ⟨he, i, hm2, hl⟩
            rw [this] at hr
            cases hr
            rfl
      | ok tail =>
        simp only [bind, Except.bind]
        constructor
        · intro h
          exact Except.noConfusion h
        · intro ⟨he, i, hm, hl⟩
          cases hm with
          | head => rw [hl] at hv; cases hv
          | tail _ hm2 =>
            have := bindIons_ok_resolved rebind ion_data rest tail hr i hm2
            exact absurd hl this

theorem bindIons_ok_of_resolved (rebind : List (String × String))
    (ion_data : List (String × IonShared)) (ions : List IonDep)
    (h : ∀ ion ∈ ions, value_by_key ion_data (resolveIonName rebind ion.name) ≠ none) :
    ∃ sts, bindIons rebind ion_data ions = .ok sts := by
  cases hb : bindIons rebind ion_data ions with
  | ok sts => exact ⟨sts, rfl⟩
  | error e =>
    obtain ⟨_, i, hm, hl⟩ := (bindIons_error_iff rebind ion_data ions e).1 hb
    exact absurd hl (h i hm)

theorem bindIons_ok_getD (rebind : List (String × String))
    (ion_data : List (String × IonShared)) :
    ∀ (ions : List IonDep) (sts : List ArbIonState) (k : Nat) (oion : IonShared),
      bindIons rebind ion_data ions = .ok sts →
      k < ions.length →
      value_by_key ion_data (resolveIonName rebind (ions.getD k default).name) = some oion →
      sts.getD k default =
        { current_density := oion.iX, reversal_potential := oion.eX,
          internal_concentration := oion.Xi, external_concentration := oion.Xo,
          ionic_charge := oion.charge, index := none } := by
  intro ions
  induction ions with
  | nil => intro sts k oion _ hk; simp at hk
  | cons ion rest ih =>
    intro sts k oion h hk hres
    simp only [bindIons] at h
    cases hv : value_by_key ion_data (resolveIonName rebind ion.name) with
    | none => rw [hv] at h; cases h
    | some o1 =>
      rw [hv] at h
      cases hr : bindIons rebind ion_data rest with
      | error e =>
        rw [hr] at h
        simp only [bind, Except.bind] at h
        exact Except.noConfusion h
      | ok tail =>
        rw [hr] at h
        simp only [bind, Except.bind] at h
        cases h
        cases k with
        | zero =>
          simp only [List.getD_cons_zero] at hres ⊢
          rw [hres] at hv
          cases hv
          rfl
        | succ k2 =>
          simp only [List.getD_cons_succ] at hres ⊢
          exact ih tail k2 oion hr (by simpa using hk) hres

/-! Lemmas about the global override scan (lines 129-139). -/

theorem overrideScan_error_shape (names : List String) (idx : Nat) (found : Bool)
    (gh : List (Option ℚ)) (k : String) (v : ℚ) (e : ArbError)
    (h : overrideScan names idx found gh k v = .error e) : e = .noSuchGlobal k := by
  induction names generalizing idx with
  | nil => simp only [overrideScan] at h; cases h
  | cons nm rest ih =>
    simp only [overrideScan] at h
    by_cases hnm : nm = k
    · rw [if_pos hnm] at h; cases h
    · rw [if_neg hnm] at h
      cases found with
      | false => cases h; rfl
      | true => exact ih (idx + 1) h

theorem applyGlobalOverrides_error_shape (gnames : List String) :
    ∀ (ovs : List (String × ℚ)) (gh : List (Option ℚ)) (e : ArbError),
      applyGlobalOverrides gnames ovs gh = .error e → ∃ k, e = .noSuchGlobal k := by
  intro ovs
  induction ovs with
  | nil => intro gh e h; simp only [applyGlobalOverrides] at h; cases h
  | cons kv rest ih =>
    intro gh e h
    simp only [applyGlobalOverrides] at h
    cases hs : overrideScan gnames 0 false gh kv.1 kv.2 with
    | error e2 =>
      rw [hs] at h
      simp only [bind, Except.bind] at h
      cases h
      exact ⟨kv.1, overrideScan_error_shape _ _ _ _ _ _ _ hs⟩
    | ok gh2 =>
      rw [hs] at h
      simp only [bind, Except.bind] at h
      exact ih gh2 e h

theorem applyGlobalOverrides_nil_names :
    ∀ (ovs : List (String × ℚ)) (gh : List (Option ℚ)),
      applyGlobalOverrides [] ovs gh = .ok gh := by
  intro ovs
  induction ovs with
  | nil => intro gh; rfl
  | cons kv rest ih =>
    intro gh
    simp only [applyGlobalOverrides, overrideScan, bind, Except.bind]
    exact ih gh

theorem applyGlobalOverrides_length (gnames : List String) :
    ∀ (ovs : List (String × ℚ)) (gh gh2 : List (Option ℚ)),
      applyGlobalOverrides gnames ovs gh = .ok gh2 → gh2.length = gh.length := by
  intro ovs
  induction ovs with
  | nil =>
    intro gh gh2 h
    simp only [applyGlobalOverrides] at h
    cases h
    rfl
  | cons kv rest ih =>
    intro gh gh2 h
    simp only [applyGlobalOverrides] at h
    cases hs : overrideScan gnames 0 false gh kv.1 kv.2 with
    | error e =>
      rw [hs] at h
      simp only [bind, Except.bind] at h
      exact Except.noConfusion h
    | ok gh1 =>
      rw [hs] at h
      simp only [bind, Except.bind] at h
      have h1 : gh1.length = gh.length := by
        cases gnames with
        | nil => simp only [overrideScan] at hs; cases hs; rfl
        | cons nm rest2 =>
          simp only [overrideScan] at hs
          by_cases hnm : nm = kv.1
          · rw [if_pos hnm] at hs
            cases hs
            exact List.length_set gh 0 _
          · rw [if_neg hnm] at hs
            cases hs
      rw [ih gh1 gh2 h, h1]

/-! Lemmas about the ion index loop (lines 154-166). -/

theorem ionIndexLoop_ok_spec (rebind : List (String × String))
    (ion_data : List (String × IonShared)) (cv : List Int) (width : Nat) :
    ∀ (ions : List IonDep) (buf : List (Option Int)) (ptr : Nat)
      (r : List (Option Int) × List Nat × Nat),
      ionIndexLoop rebind ion_data cv width ions buf ptr = .ok r →
      r.2.1 = (List.range ions.length).map (fun k => ptr + k * width) ∧
      r.2.2 = ptr + ions.length * width ∧
      r.1.length = buf.length := by
  intro ions
  induction ions with
  | nil =>
    intro buf ptr r h
    simp only [ionIndexLoop] at h
    cases h
    simp
  | cons ion rest ih =>
    intro buf ptr r h
    simp only [ionIndexLoop, appendChunk] at h
    split at h
    · exact Except.noConfusion h
    · rename_i oion hv
      cases hr : ionIndexLoop rebind ion_data cv width rest
          (writeVals buf ptr
            ((((index_into cv oion.node_index).map Int.ofNat).take width).map some))
          (ptr + width) with
      | error e =>
        rw [hr] at h
        simp only [bind, Except.bind] at h
        exact Except.noConfusion h
      | ok rest2 =>
        rw [hr] at h
        simp only [bind, Except.bind] at h
        cases h
        obtain ⟨h1, h2, h3⟩ := ih _ _ rest2 hr
        refine ⟨?_, ?_, ?_⟩
        · show ptr :: rest2.2.1 = _
          rw [h1, List.length_cons, List.range_succ_eq_map, List.map_cons, List.map_map]
          refine congrArg₂ _ (by simp) (List.map_congr_left ?_)
          intro k _
          simp only [Function.comp_apply, Nat.succ_mul]
          omega
        · show rest2.2.2 = ptr + (rest.length + 1) * width
          rw [h2, Nat.succ_mul]
          omega
        · show rest2.1.length = buf.length
          rw [h3, writeVals_length]

theorem ionIndexLoop_ok_of_resolved (rebind : List (String × String))
    (ion_data : List (String × IonShared)) (cv : List Int) (width : Nat) :
    ∀ (ions : List IonDep) (buf : List (Option Int)) (ptr : Nat),
      (∀ ion ∈ ions, value_by_key ion_data (resolveIonName rebind ion.name) ≠ none) →
      ∃ r, ionIndexLoop rebind ion_data cv width ions buf ptr = .ok r := by
  intro ions
  induction ions with
  | nil => intro buf ptr _; exact ⟨(buf, [], ptr), rfl⟩
  | cons ion rest ih =>
    intro buf ptr hres
    cases hv : value_by_key ion_data (resolveIonName rebind ion.name) with
    | none => exact absurd hv (hres ion (List.mem_cons_self ion rest))
    | some oion =>
      obtain ⟨r2, hr2⟩ := ih
        (writeVals buf ptr
          ((((index_into cv oion.node_index).map Int.ofNat).take width).map some))
        (ptr + width)
        (fun i hm => hres i (List.mem_cons_of_mem ion hm))
      refine ⟨(r2.1, ptr :: r2.2.1, r2.2.2), ?_⟩
      simp only [ionIndexLoop, appendChunk, hv, hr2, bind, Except.bind]

theorem appendConsts_ptrs (n : Nat) (vs : List α) (buf : List (Option α)) (ptr : Nat) :
    (appendConsts n vs buf ptr).2.1
      = (List.range vs.length).map (fun k => some (ptr + k * n)) :=
  (appendConsts_spec n vs buf ptr).1

theorem appendConsts_final (n : Nat) (vs : List α) (buf : List (Option α)) (ptr : Nat) :
    (appendConsts n vs buf ptr).2.2 = ptr + vs.length * n :=
  (appendConsts_spec n vs buf ptr).2.1

theorem appendConsts_len (n : Nat) (vs : List α) (buf : List (Option α)) (ptr : Nat) :
    (appendConsts n vs buf ptr).1.length = buf.length :=
  (appendConsts_spec n vs buf ptr).2.2

/-! Lemmas about the value-buffer block (lines 113-143). -/

theorem valueStage_ok_spec (mech : MechDesc) (ovs : List (String × ℚ)) (weight : List ℚ)
    (width width_padded : Nat) (vs : ValueStageOut)
    (h : valueStage mech ovs weight width width_padded = .ok vs) :
    vs.weight_ptr = 0 ∧
    vs.parameters_h
      = (List.range mech.parameters.length).map (fun k => some ((1 + k) * width)) ∧
    vs.state_vars_h
      = (List.range mech.state_vars.length).map
          (fun k => some ((1 + mech.parameters.length + k) * width)) ∧
    vs.globals_ptr = (1 + mech.parameters.length + mech.state_vars.length) * width ∧
    vs.data.length
      = (mech.state_vars.length + mech.parameters.length + 1) * width_padded
          + mech.globals.length ∧
    vs.globals_h.length = mech.globals.length := by
  simp only [valueStage, appendChunk] at h
  cases hg : applyGlobalOverrides (mech.globals.map (·.name)) ovs
      (mech.globals.map (fun e => (some e.default_value : Option ℚ))) with
  | error e =>
    rw [hg] at h
    simp only [bind, Except.bind] at h
    exact Except.noConfusion h
  | ok gh =>
    rw [hg] at h
    simp only [bind, Except.bind] at h
    cases h
    have hglen : gh.length = mech.globals.length := by
      have := applyGlobalOverrides_length (mech.globals.map (·.name)) ovs _ gh hg
      simpa using this
    refine ⟨rfl, ?_, ?_, ?_, ?_, hglen⟩
    · simp only [appendConsts_ptrs, List.length_map]
      refine List.map_congr_left ?_
      intro k _
      congr 1
      ring
    · simp only [appendConsts_ptrs, appendConsts_final, List.length_map]
      refine List.map_congr_left ?_
      intro k _
      congr 1
      ring
    · simp only [appendConsts_final, List.length_map]
      ring
    · simp only [writeVals_length, appendConsts_len, List.length_replicate]

/-! Lemmas about the index-buffer block (lines 145-169). -/

theorem indexStage_ok_spec (mech : MechDesc) (rebind : List (String × String))
    (ion_data : List (String × IonShared)) (cv multiplicity : List Int)
    (width width_padded : Nat) (mult_in_place : Bool) (ix : IndexStageOut)
    (hw : width ≤ width_padded)
    (h : indexStage mech rebind ion_data cv multiplicity width width_padded mult_in_place
        = .ok ix) :
    ix.node_ptr = 0 ∧
    ix.ion_ptrs = (List.range mech.ions.length).map (fun k => (1 + k) * width) ∧
    ix.mult_ptr = (if mult_in_place then some ((1 + mech.ions.length) * width) else none) ∧
    ix.indices.length
      = ((if mult_in_place then 1 else 0) + mech.ions.length + 1) * width_padded ∧
    (mult_in_place = true →
      ∀ i, i < width → i < multiplicity.length →
        ix.indices.getD ((1 + mech.ions.length) * width + i) none
          = some (multiplicity.getD i 0)) := by
  simp only [indexStage, appendChunk] at h
  cases hloop : ionIndexLoop rebind ion_data cv width mech.ions
      (writeVals
        (List.replicate
          (((if mult_in_place then 1 else 0) + mech.ions.length + 1) * width_padded) none)
        0 ((cv.take width).map some))
      (0 + width) with
  | error e =>
    rw [hloop] at h
    simp only [bind, Except.bind] at h
    exact Except.noConfusion h
  | ok rest =>
    rw [hloop] at h
    simp only [bind, Except.bind] at h
    obtain ⟨hp1, hp2, hp3⟩ := ionIndexLoop_ok_spec rebind ion_data cv width mech.ions
      _ _ rest hloop
    rw [writeVals_length, List.length_replicate] at hp3
    have hion_ptrs : rest.2.1 = (List.range mech.ions.length).map (fun k => (1 + k) * width) := by
      rw [hp1]
      refine List.map_congr_left ?_
      intro k _
      rw [Nat.add_mul, Nat.one_mul]
      omega
    have hfin : rest.2.2 = (1 + mech.ions.length) * width := by
      rw [hp2, Nat.add_mul, Nat.one_mul]
      omega
    cases mult_in_place with
    | false =>
      simp only [Bool.false_eq_true, if_false] at h ⊢
      cases h
      exact ⟨rfl, hion_ptrs, rfl, by simpa using hp3, by simp⟩
    | true =>
      simp only [if_true] at h ⊢
      cases h
      refine ⟨rfl, hion_ptrs, by rw [hfin], ?_, ?_⟩
      · show (writeVals rest.1 rest.2.2 ((multiplicity.take width).map some)).length = _
        rw [writeVals_length, hp3]
        simp
      · intro _ i hi him
        show (writeVals rest.1 rest.2.2 ((multiplicity.take width).map some)).getD
            ((1 + mech.ions.length) * width + i) none = _
        rw [← hfin]
        have hlen : rest.2.2 + i < rest.1.length := by
          rw [hp3, hfin]
          have : (1 + mech.ions.length) * width + i < (1 + mech.ions.length + 1) * width := by
            rw [Nat.add_mul (1 + mech.ions.length) 1 width, Nat.one_mul]
            omega
          calc (1 + mech.ions.length) * width + i
              < (1 + mech.ions.length + 1) * width := this
            _ ≤ (1 + mech.ions.length + 1) * width_padded :=
                Nat.mul_le_mul_left _ hw
            _ = (1 + mech.ions.length + 1) * width_padded := rfl
        rw [writeVals_getD_in _ _ _ _ _ (by simpa using And.intro hi him) hlen]
        rw [getD_map_some _ _ 0 (by simpa using And.intro hi him)]
        rw [getD_take _ _ _ _ hi him]

theorem indexStage_ok_of_resolved (mech : MechDesc) (rebind : List (String × String))
    (ion_data : List (String × IonShared)) (cv multiplicity : List Int)
    (width width_padded : Nat) (mult_in_place : Bool)
    (hres : ∀ ion ∈ mech.ions, value_by_key ion_data (resolveIonName rebind ion.name) ≠ none) :
    ∃ ix, indexStage mech rebind ion_data cv multiplicity width width_padded mult_in_place
        = .ok ix := by
  obtain ⟨r, hr⟩ := ionIndexLoop_ok_of_resolved rebind ion_data cv width mech.ions
    (writeVals
      (List.replicate
        (((if mult_in_place then 1 else 0) + mech.ions.length + 1) * width_padded) none)
      0 ((cv.take width).map some))
    (0 + width) hres
  cases mult_in_place with
  | false =>
    simp only [Bool.false_eq_true, if_false] at hr
    refine ⟨{ indices := r.1, node_ptr := 0, ion_ptrs := r.2.1, mult_ptr := none }, ?_⟩
    simp only [indexStage, appendChunk, bind, Except.bind, Bool.false_eq_true, if_false, hr]
  | true =>
    simp only [if_true] at hr
    refine ⟨{ indices := writeVals r.1 r.2.2 ((multiplicity.take width).map some),
              node_ptr := 0, ion_ptrs := r.2.1, mult_ptr := some r.2.2 }, ?_⟩
    simp only [indexStage, appendChunk, bind, Except.bind, if_true, hr]

/-! Inversion lemmas for instantiate. -/

theorem instantiate_ok_spec (id : Nat) (shared : SharedState) (overrides : MechOverrides)
    (pos_data : MechLayout) (mech : MechDesc) (alignment : Nat) (m : Mechanism)
    (h0 : 0 < pos_data.cv.length)
    (hok : instantiate id shared overrides pos_data mech alignment = .ok m) :
    ∃ sts vs ix,
      bindIons overrides.ion_rebind shared.ion_data mech.ions = .ok sts ∧
      valueStage mech overrides.globals pos_data.weight pos_data.cv.length
        (round_up pos_data.cv.length alignment) = .ok vs ∧
      indexStage mech overrides.ion_rebind shared.ion_data pos_data.cv
        pos_data.multiplicity pos_data.cv.length
        (round_up pos_data.cv.length alignment) (!pos_data.multiplicity.isEmpty) = .ok ix ∧
      m = { mech := mech, width := pos_data.cv.length,
            width_padded := round_up pos_data.cv.length alignment,
            mult_in_place := !pos_data.multiplicity.isEmpty,
            num_ions := mech.ions.length,
            data := vs.data, indices := ix.indices,
            parameters_h := vs.parameters_h, state_vars_h := vs.state_vars_h,
            globals_h := vs.globals_h,
            ion_states_h := List.zipWith
              (fun st ptr => { st with index := some ptr }) sts ix.ion_ptrs,
            parameters_d := some vs.parameters_h,
            state_vars_d := some vs.state_vars_h,
            ion_states_d := some (List.zipWith
              (fun st ptr => { st with index := some ptr }) sts ix.ion_ptrs),
            ppack :=
            { width := pos_data.cv.length, mechanism_id := id,
              vec_ci := shared.cv_to_cell, vec_di := shared.cv_to_intdom,
              vec_dt := shared.dt_cv, vec_v := shared.voltage,
              vec_i := shared.current_density, vec_g := shared.conductivity,
              temperature_degC := shared.temperature_degC, diam_um := shared.diam_um,
              time_since_spike := shared.time_since_spike,
              n_detectors := shared.n_detector,
              weight := some vs.weight_ptr, globals := some vs.globals_ptr,
              node_index := some ix.node_ptr, multiplicity := ix.mult_ptr,
              parameters := some (), state_vars := some (), ion_states := some () } } := by
  simp only [instantiate] at hok
  cases hb : bindIons overrides.ion_rebind shared.ion_data mech.ions with
  | error e =>
    rw [hb] at hok
    simp only [bind, Except.bind] at hok
    exact Except.noConfusion hok
  | ok sts =>
    rw [hb] at hok
    simp only [bind, Except.bind] at hok
    rw [if_neg (by omega)] at hok
    cases hv : valueStage mech overrides.globals pos_data.weight pos_data.cv.length
        (round_up pos_data.cv.length alignment) with
    | error e =>
      rw [hv] at hok
      simp only [bind, Except.bind] at hok
      exact Except.noConfusion hok
    | ok vs =>
      rw [hv] at hok
      simp only [bind, Except.bind] at hok
      cases hx : indexStage mech overrides.ion_rebind shared.ion_data pos_data.cv
          pos_data.multiplicity pos_data.cv.length
          (round_up pos_data.cv.length alignment) (!pos_data.multiplicity.isEmpty) with
      | error e =>
        rw [hx] at hok
        simp only [bind, Except.bind] at hok
        exact Except.noConfusion hok
      | ok ix =>
        rw [hx] at hok
        simp only [bind, Except.bind] at hok
        cases hok
        exact ⟨sts, vs, ix, rfl, rfl, rfl, rfl⟩

theorem instantiate_zero_spec (id : Nat) (shared : SharedState) (overrides : MechOverrides)
    (pos_data : MechLayout) (mech : MechDesc) (alignment : Nat) (m : Mechanism)
    (h0 : pos_data.cv.length = 0)
    (hok : instantiate id shared overrides pos_data mech alignment = .ok m) :
    ∃ sts,
      bindIons overrides.ion_rebind shared.ion_data mech.ions = .ok sts ∧
      m = { mech := mech, width := pos_data.cv.length,
            width_padded := round_up pos_data.cv.length alignment,
            mult_in_place := !pos_data.multiplicity.isEmpty,
            num_ions := mech.ions.length,
            data := [], indices := [],
            parameters_h := List.replicate mech.parameters.length none,
            state_vars_h := List.replicate mech.state_vars.length none,
            globals_h := List.replicate mech.globals.length none,
            ion_states_h := sts,
            parameters_d := none, state_vars_d := none, ion_states_d := none,
            ppack :=
            { width := pos_data.cv.length, mechanism_id := id,
              vec_ci := shared.cv_to_cell, vec_di := shared.cv_to_intdom,
              vec_dt := shared.dt_cv, vec_v := shared.voltage,
              vec_i := shared.current_density, vec_g := shared.conductivity,
              temperature_degC := shared.temperature_degC, diam_um := shared.diam_um,
              time_since_spike := shared.time_since_spike,
              n_detectors := shared.n_detector,
              weight := none, node_index := none, multiplicity := none, globals := none,
              parameters := none, state_vars := none, ion_states := none } } := by
  simp only [instantiate] at hok
  cases hb : bindIons overrides.ion_rebind shared.ion_data mech.ions with
  | error e =>
    rw [hb] at hok
    simp only [bind, Except.bind] at hok
    exact Except.noConfusion hok
  | ok sts =>
    rw [hb] at hok
    simp only [bind, Except.bind] at hok
    rw [if_pos h0] at hok
    cases hok
    exact ⟨sts, rfl, rfl⟩

/-! Lemmas about the multiplicity scaling kernel. -/

theorem scaleFrom_length (s p n : Nat) (idxs : List (Option Int)) :
    ∀ (i : Nat) (data : List (Option ℚ)),
      (scaleFrom s p n idxs i data).length = data.length := by
  intro i data
  induction data generalizing i with
  | nil => rfl
  | cons x xs ih =>
    show (_ :: scaleFrom s p n idxs (i + 1) xs).length = _
    simp [ih]

theorem scaleFrom_getD (s p n : Nat) (idxs : List (Option Int)) :
    ∀ (i : Nat) (data : List (Option ℚ)) (j : Nat) (d : Option ℚ), j < data.length →
      (scaleFrom s p n idxs i data).getD j d
        = if s ≤ i + j ∧ i + j < s + n
            then omul (data.getD j d) (idxs.getD (p + (i + j - s)) none)
            else data.getD j d := by
  intro i data
  induction data generalizing i with
  | nil => intro j d hj; simp at hj
  | cons x xs ih =>
    intro j d hj
    cases j with
    | zero =>
      show ((if s ≤ i ∧ i < s + n then omul x (idxs.getD (p + (i - s)) none) else x)
          :: scaleFrom s p n idxs (i + 1) xs).getD 0 d = _
      simp only [List.getD_cons_zero, Nat.add_zero]
    | succ j2 =>
      show ((if s ≤ i ∧ i < s + n then omul x (idxs.getD (p + (i - s)) none) else x)
          :: scaleFrom s p n idxs (i + 1) xs).getD (j2 + 1) d = _
      simp only [List.getD_cons_succ]
      rw [ih (i + 1) j2 d (by simpa using hj)]
      have h12 : i + 1 + j2 = i + (j2 + 1) := by omega
      rw [h12]

theorem multiply_in_place_length (data : List (Option ℚ)) (s : Nat)
    (idxs : List (Option Int)) (p n : Nat) :
    (multiply_in_place data s idxs p n).length = data.length :=
  scaleFrom_length s p n idxs 0 data

theorem multiply_in_place_getD (data : List (Option ℚ)) (s : Nat)
    (idxs : List (Option Int)) (p n j : Nat) (d : Option ℚ) (hj : j < data.length) :
    (multiply_in_place data s idxs p n).getD j d
      = if s ≤ j ∧ j < s + n
          then omul (data.getD j d) (idxs.getD (p + (j - s)) none)
          else data.getD j d := by
  have := scaleFrom_getD s p n idxs 0 data j d hj
  simpa using this

theorem multiply_in_place_getD_out (data : List (Option ℚ)) (s : Nat)
    (idxs : List (Option Int)) (p n j : Nat) (d : Option ℚ)
    (h : j < s ∨ s + n ≤ j) :
    (multiply_in_place data s idxs p n).getD j d = data.getD j d := by
  by_cases hj : j < data.length
  · rw [multiply_in_place_getD data s idxs p n j d hj, if_neg (by omega)]
  · rw [List.getD_eq_default _ _ (by rw [multiply_in_place_length]; omega),
      List.getD_eq_default _ _ (by omega)]

theorem foldl_multiply_length (idxs : List (Option Int)) (pp n : Nat) :
    ∀ (offs : List (Option Nat)) (data : List (Option ℚ)),
      (offs.foldl (fun dacc sOff => multiply_in_place dacc (sOff.getD 0) idxs pp n)
        data).length = data.length := by
  intro offs
  induction offs with
  | nil => intro data; rfl
  | cons x rest ih =>
    intro data
    show (rest.foldl _ (multiply_in_place data (x.getD 0) idxs pp n)).length = _
    rw [ih, multiply_in_place_length]

theorem foldl_multiply_range_out (idxs : List (Option Int)) (pp width p : Nat)
    (q : Nat) (d : Option ℚ) :
    ∀ (s : Nat) (data : List (Option ℚ)),
      (∀ k, k < s → q < (1 + p + k) * width ∨ (1 + p + k) * width + width ≤ q) →
      (((List.range s).map (fun k => some ((1 + p + k) * width))).foldl
          (fun dacc sOff => multiply_in_place dacc (sOff.getD 0) idxs pp width)
          data).getD q d
        = data.getD q d := by
  intro s
  induction s with
  | zero => intro data _; rfl
  | succ s2 ih =>
    intro data hout
    rw [List.range_succ, List.map_append, List.foldl_append]
    show (multiply_in_place _ ((some ((1 + p + s2) * width)).getD 0) idxs pp width).getD q d
      = data.getD q d
    rw [multiply_in_place_getD_out _ _ _ _ _ _ _ (by simpa using hout s2 (by omega))]
    exact ih data (fun k hk => hout k (by omega))

theorem foldl_multiply_range_hit (idxs : List (Option Int)) (pp width p : Nat)
    (d : Option ℚ) :
    ∀ (s : Nat) (data : List (Option ℚ)) (j i : Nat),
      j < s → i < width → (1 + p + j) * width + i < data.length →
      (((List.range s).map (fun k => some ((1 + p + k) * width))).foldl
          (fun dacc sOff => multiply_in_place dacc (sOff.getD 0) idxs pp width)
          data).getD ((1 + p + j) * width + i) d
        = omul (data.getD ((1 + p + j) * width + i) d) (idxs.getD (pp + i) none) := by
  intro s
  induction s with
  | zero => intro data j i hj; omega
  | succ s2 ih =>
    intro data j i hj hi hq
    rw [List.range_succ, List.map_append, List.foldl_append]
    show (multiply_in_place _ ((some ((1 + p + s2) * width)).getD 0) idxs pp width).getD
        ((1 + p + j) * width + i) d = _
    by_cases hjs : j = s2
    · subst hjs
      have hflen :
          (((List.range j).map (fun k => some ((1 + p + k) * width))).foldl
            (fun dacc sOff => multiply_in_place dacc (sOff.getD 0) idxs pp width)
            data).length = data.length := foldl_multiply_length idxs pp width _ data
      simp only [Option.getD_some]
      rw [multiply_in_place_getD _ _ _ _ _ _ _ (by rw [hflen]; omega)]
      rw [if_pos (by omega)]
      have hsub : (1 + p + j) * width + i - (1 + p + j) * width = i := by omega
      rw [hsub]
      congr 1
      refine foldl_multiply_range_out idxs pp width p _ d j data ?_
      intro k hk
      right
      have hh : (1 + p + k) * width + width = (1 + p + k + 1) * width := by ring
      rw [hh]
      have hmono : (1 + p + k + 1) * width ≤ (1 + p + j) * width :=
        Nat.mul_le_mul_right width (by omega)
      omega
    · have hlt : j < s2 := by omega
      rw [multiply_in_place_getD_out]
      · exact ih data j i hlt hi hq
      · simp only [Option.getD_some]
        left
        have : (1 + p + j) * width + i < (1 + p + j + 1) * width := by
          have := Nat.add_mul (1 + p + j) 1 width
          omega
        have hmono : (1 + p + j + 1) * width ≤ (1 + p + s2) * width :=
          Nat.mul_le_mul_right width (by omega)
        omega

theorem valueStage_error_shape (mech : MechDesc) (ovs : List (String × ℚ))
    (weight : List ℚ) (width width_padded : Nat) (e : ArbError)
    (h : valueStage mech ovs weight width width_padded = .error e) :
    ∃ k, e = .noSuchGlobal k := by
  simp only [valueStage, appendChunk] at h
  cases hg : applyGlobalOverrides (mech.globals.map (·.name)) ovs
      (mech.globals.map (fun g => (some g.default_value : Option ℚ))) with
  | error e2 =>
    rw [hg] at h
    simp only [bind, Except.bind] at h
    cases h
    exact applyGlobalOverrides_error_shape _ _ _ _ hg
  | ok gh =>
    rw [hg] at h
    simp only [bind, Except.bind] at h
    exact Except.noConfusion h

theorem valueStage_ok_of_no_globals (mech : MechDesc) (ovs : List (String × ℚ))
    (weight : List ℚ) (width width_padded : Nat) (hg : mech.globals = []) :
    ∃ vs, valueStage mech ovs weight width width_padded = .ok vs ∧ vs.globals_h = [] := by
  simp only [valueStage, appendChunk, hg, List.map_nil]
  rw [applyGlobalOverrides_nil_names]
  simp only [bind, Except.bind]
  exact ⟨_, rfl, rfl⟩

end ArborGpu

deriving instance DecidableEq for Except

namespace ArborGpu

/-- C1: Evaluation of instantiate at the failing input width 3, alignment 4
(so width_padded is 4), with one parameter and one state variable: each
per-site append advances the value-buffer cursor by width, not
width_padded, so the parameter chunk is recorded at offset 3, the
state-variable chunk at offset 6 and the globals region at offset 9,
whereas the claim requires offsets 4, 8 and 12; only the allocation size
(data length 12) uses the padded width. -/
theorem c1_chunk_offsets_use_width_not_width_padded :
    instantiate 0 sharedEmpty ovEmpty layC1 mechC1 4 = .ok mC1 ∧
    mC1.width = 3 ∧ mC1.width_padded = 4 ∧
    mC1.ppack.weight = some 0 ∧
    mC1.parameters_h = [some 3] ∧
    mC1.state_vars_h = [some 6] ∧
    mC1.ppack.globals = some 9 ∧
    mC1.data.length = 12 := by decide

/-- C2: Evaluation of instantiate at the failing input: schema globals a
(default 1) and b (default 2) with the override set assigning 5 to b, on
one site. The found-check of the override scan sits inside the loop over
the schema globals, so the override b is rejected at the first
non-matching schema global a and construction aborts with the unknown
override error, although b is a schema global; an override naming the
first schema global a is applied as the claim describes. -/
theorem c2_override_rejected_unless_first_global :
    instantiate 0 sharedEmpty ovC2 layW1 mechC2 1 = .error (.noSuchGlobal ("b")) ∧
    (instantiate 0 sharedEmpty ⟨[(("a"), 5)], []⟩ layW1 mechC2 1).map global_table
      = .ok [(("a"), some 5), (("b"), some 2)] := by decide

/-- C3: For every needle sequence A and haystack sequence B such that every
element of A occurs in B, index_into returns a sequence of the same length
as A whose k-th entry is a valid position of B at which the k-th needle
occurs; and on the concrete example A = [3,7,2], B = [1..7] it returns
[2,6,1]. -/
theorem c3_index_into_join :
    (∀ (A B : List Int), (∀ x ∈ A, x ∈ B) →
        (index_into A B).length = A.length ∧
        ∀ k, k < A.length →
          (index_into A B).getD k 0 < B.length ∧
          B.getD ((index_into A B).getD k 0) 0 = A.getD k 0) ∧
    index_into [3, 7, 2] [1, 2, 3, 4, 5, 6, 7] = [2, 6, 1] := by
  constructor
  · intro A B h
    constructor
    · simp [index_into]
    · intro k hk
      have hk2 : k < (index_into A B).length := by simpa [index_into] using hk
      have hmem : A.getD k 0 ∈ B := by
        refine h _ ?_
        rw [List.getD_eq_getElem _ _ hk]
        exact List.getElem_mem hk
      have e1 : (index_into A B).getD k 0 = B.indexOf (A.getD k 0) := by
        rw [List.getD_eq_getElem _ _ hk2, List.getD_eq_getElem _ _ hk]
        simp [index_into]
      have hlt : B.indexOf (A.getD k 0) < B.length := List.indexOf_lt_length.2 hmem
      refine ⟨by rw [e1]; exact hlt, ?_⟩
      rw [e1, List.getD_eq_getElem _ _ hlt]
      exact List.getElem_indexOf hlt
  · decide

/-- C3 witness: the membership precondition holds at the concrete example
and applying the theorem there yields the join properties at index 0. -/
theorem c3_index_into_join_witness :
    (index_into [3, 7, 2] [1, 2, 3, 4, 5, 6, 7]).length = ([3, 7, 2] : List Int).length ∧
    ([1, 2, 3, 4, 5, 6, 7] : List Int).getD
        ((index_into [3, 7, 2] [1, 2, 3, 4, 5, 6, 7]).getD 0 0) 0
      = ([3, 7, 2] : List Int).getD 0 0 :=
  ⟨(c3_index_into_join.1 [3, 7, 2] [1, 2, 3, 4, 5, 6, 7] (by decide)).1,
   ((c3_index_into_join.1 [3, 7, 2] [1, 2, 3, 4, 5, 6, 7] (by decide)).2 0 (by decide)).2⟩

/-- C6: instantiate aborts with the missing-ion internal-invariant error
exactly when some declared ion, resolved by taking the rebind-mapped name
when the declared name is present in the rebind table and the declared
name unchanged otherwise, is absent from the shared-state ion map. -/
theorem c6_missing_ion_iff (id : Nat) (shared : SharedState) (overrides : MechOverrides)
    (pos_data : MechLayout) (mech : MechDesc) (alignment : Nat) :
    instantiate id shared overrides pos_data mech alignment = .error .missingIon ↔
      ∃ ion ∈ mech.ions,
        value_by_key shared.ion_data (resolveIonName overrides.ion_rebind ion.name)
          = none := by
  constructor
  · intro h
    cases hb : bindIons overrides.ion_rebind shared.ion_data mech.ions with
    | error e =>
      exact ((bindIons_error_iff _ _ _ e).1 hb).2
    | ok sts =>
      exfalso
      simp only [instantiate] at h
      rw [hb] at h
      simp only [bind, Except.bind] at h
      by_cases h0 : pos_data.cv.length = 0
      · rw [if_pos h0] at h
        exact Except.noConfusion h
      · rw [if_neg h0] at h
        cases hv : valueStage mech overrides.globals pos_data.weight pos_data.cv.length
            (round_up pos_data.cv.length alignment) with
        | error e =>
          rw [hv] at h
          simp only [bind, Except.bind] at h
          obtain ⟨k, hk⟩ := valueStage_error_shape _ _ _ _ _ _ hv
          rw [hk] at h
          simp at h
        | ok vs =>
          rw [hv] at h
          simp only [bind, Except.bind] at h
          obtain ⟨ix, hx⟩ := indexStage_ok_of_resolved mech overrides.ion_rebind
            shared.ion_data pos_data.cv pos_data.multiplicity pos_data.cv.length
            (round_up pos_data.cv.length alignment) (!pos_data.multiplicity.isEmpty)
            (bindIons_ok_resolved _ _ _ _ hb)
          rw [hx] at h
          simp only [bind, Except.bind] at h
          exact Except.noConfusion h
  · intro hex
    have hb : bindIons overrides.ion_rebind shared.ion_data mech.ions = .error .missingIon :=
      (bindIons_error_iff _ _ _ _).2 ⟨rfl, hex⟩
    simp only [instantiate, hb, bind, Except.bind]

/-- C10: when the schema declares no globals, the override scan loop has no
iterations, so instantiate never raises the unknown-override error: with
every declared ion resolvable it completes, every override entry is
ignored, and the resolved global table is empty. -/
theorem c10_overrides_ignored_when_no_globals (id : Nat) (shared : SharedState)
    (overrides : MechOverrides) (pos_data : MechLayout) (mech : MechDesc)
    (alignment : Nat)
    (hg : mech.globals = [])
    (hions : ∀ ion ∈ mech.ions,
      value_by_key shared.ion_data (resolveIonName overrides.ion_rebind ion.name) ≠ none) :
    (instantiate id shared overrides pos_data mech alignment).map global_table
      = .ok [] := by
  obtain ⟨sts, hb⟩ := bindIons_ok_of_resolved _ _ _ hions
  by_cases h0 : pos_data.cv.length = 0
  · simp only [instantiate, hb, bind, Except.bind, if_pos h0, Except.map]
    simp [global_table, hg]
  · obtain ⟨vs, hv, _⟩ := valueStage_ok_of_no_globals mech overrides.globals
      pos_data.weight pos_data.cv.length (round_up pos_data.cv.length alignment) hg
    obtain ⟨ix, hx⟩ := indexStage_ok_of_resolved mech overrides.ion_rebind
      shared.ion_data pos_data.cv pos_data.multiplicity pos_data.cv.length
      (round_up pos_data.cv.length alignment) (!pos_data.multiplicity.isEmpty) hions
    simp only [instantiate, hb, bind, Except.bind, if_neg h0, hv, hx, Except.map]
    simp [global_table, hg]

/-- C10 witness: a schema with no globals and a non-empty override set
naming the unknown global c completes with an empty global table. -/
theorem c10_overrides_ignored_when_no_globals_witness :
    mechC10.globals = [] ∧
    (instantiate 0 sharedEmpty ovC10 layW1 mechC10 1).map global_table = .ok [] :=
  ⟨rfl, c10_overrides_ignored_when_no_globals 0 sharedEmpty ovC10 layW1 mechC10 1 rfl
    (by intro ion hmem; cases hmem)⟩

theorem getD_range_map (f : Nat → α) (n k : Nat) (d : α) (hk : k < n) :
    ((List.range n).map f).getD k d = f k := by
  rw [List.getD_eq_getElem _ _ (by simpa using hk)]
  simp

/-- C4 counterexample: instantiating a schema with one parameter on an
empty site sequence returns early, so the device-side mirrors, the
parameter-pack buffer pointers and the host parameter entries are never
populated, contradicting the claim that all pointer tables and their
device-side mirrors hold valid pointers. -/
theorem c4_counterexample :
    instantiate 0 sharedEmpty ovEmpty layC4 mechC4 1 = .ok mC4 ∧
    mC4.parameters_d = none ∧ mC4.state_vars_d = none ∧ mC4.ion_states_d = none ∧
    mC4.ppack.parameters = none ∧ mC4.ppack.state_vars = none ∧
    mC4.ppack.ion_states = none ∧ mC4.ppack.globals = none ∧
    mC4.ppack.weight = none ∧ mC4.ppack.node_index = none ∧
    mC4.parameters_h = [none] := by decide

/-- C4 amended: with width zero, instantiate binds the declared ions into
the host ion-state table and returns early: the two buffers are never
allocated, the host parameter, state-variable and global tables are
allocated but hold no valid entries, the device mirrors and the
parameter-pack buffer pointers are never populated, and the multiplicity
scaling step of initialize is the identity. -/
theorem c4_zero_width_early_return (id : Nat) (shared : SharedState)
    (overrides : MechOverrides) (pos_data : MechLayout) (mech : MechDesc)
    (alignment : Nat) (m : Mechanism) (sts : List ArbIonState)
    (h0 : pos_data.cv.length = 0)
    (hm : pos_data.multiplicity = [])
    (hok : instantiate id shared overrides pos_data mech alignment = .ok m)
    (hb : bindIons overrides.ion_rebind shared.ion_data mech.ions = .ok sts) :
    m.data = [] ∧ m.indices = [] ∧
    m.parameters_h = List.replicate mech.parameters.length none ∧
    m.state_vars_h = List.replicate mech.state_vars.length none ∧
    m.globals_h = List.replicate mech.globals.length none ∧
    m.ion_states_h = sts ∧
    m.parameters_d = none ∧ m.state_vars_d = none ∧ m.ion_states_d = none ∧
    m.ppack.weight = none ∧ m.ppack.node_index = none ∧
    m.ppack.multiplicity = none ∧ m.ppack.globals = none ∧
    m.ppack.parameters = none ∧ m.ppack.state_vars = none ∧
    m.ppack.ion_states = none ∧
    m.mult_in_place = false ∧
    init_mult_step m = m := by
  obtain ⟨sts2, hb2, hmrec⟩ := instantiate_zero_spec id shared overrides pos_data mech
    alignment m h0 hok
  rw [hb] at hb2
  have hsts : sts2 = sts := (Except.ok.inj hb2).symm
  subst hsts
  subst hmrec
  have hmult : (!pos_data.multiplicity.isEmpty) = false := by rw [hm]; rfl
  refine ⟨rfl, rfl, rfl, rfl, rfl, rfl, rfl, rfl, rfl, rfl, rfl, rfl, rfl, rfl, rfl, rfl,
    hmult, ?_⟩
  simp [init_mult_step, hmult]

/-- C4 witness: the amended statement applied at the concrete width-zero
fixture. -/
theorem c4_zero_width_early_return_witness :
    layC4.cv.length = 0 ∧ layC4.multiplicity = [] ∧
    instantiate 0 sharedEmpty ovEmpty layC4 mechC4 1 = .ok mC4 ∧
    bindIons ovEmpty.ion_rebind sharedEmpty.ion_data mechC4.ions = .ok [] ∧
    (mC4.data = [] ∧ mC4.indices = [] ∧
     mC4.parameters_h = List.replicate mechC4.parameters.length none ∧
     mC4.state_vars_h = List.replicate mechC4.state_vars.length none ∧
     mC4.globals_h = List.replicate mechC4.globals.length none ∧
     mC4.ion_states_h = [] ∧
     mC4.parameters_d = none ∧ mC4.state_vars_d = none ∧ mC4.ion_states_d = none ∧
     mC4.ppack.weight = none ∧ mC4.ppack.node_index = none ∧
     mC4.ppack.multiplicity = none ∧ mC4.ppack.globals = none ∧
     mC4.ppack.parameters = none ∧ mC4.ppack.state_vars = none ∧
     mC4.ppack.ion_states = none ∧
     mC4.mult_in_place = false ∧
     init_mult_step mC4 = mC4) :=
  ⟨rfl, rfl, by decide, rfl,
   c4_zero_width_early_return 0 sharedEmpty ovEmpty layC4 mechC4 1 mC4 [] rfl rfl
     (by decide) rfl⟩

/-- C5 counterexample: an ion declared x rebound to the shared ion ca with
distinct concentration array addresses (internal Xi = 3, external Xo = 4):
ion_table reports the internal-concentration address in its
external_concentration slot and vice versa, refuting the claim that each
pointer sits in its correspondingly named slot. -/
theorem c5_counterexample :
    instantiate 0 sharedC5 ovC5 layW1 mechC5 1 = .ok mC5 ∧
    (ion_table mC5).map (fun e => e.2.1.external_concentration) = [ionCa.Xi] ∧
    (ion_table mC5).map (fun e => e.2.1.internal_concentration) = [ionCa.Xo] ∧
    ionCa.Xi ≠ ionCa.Xo ∧
    ¬ (ion_table mC5).map (fun e => e.2.1.external_concentration) = [ionCa.Xo] := by
  decide

/-- C5 amended: for every instance, ion_table returns one entry per
declared ion, keyed by the declared name, whose view holds the bound
(rebind-resolved) shared ion addresses with current density and ionic
charge in their correspondingly named slots but the internal and external
concentration addresses interchanged (the external_concentration slot
holds the bound ion internal-concentration address Xi and the
internal_concentration slot the external-concentration address Xo),
paired with that ion joined index pointer. -/
theorem c5_ion_table_swaps_concentrations (id : Nat) (shared : SharedState)
    (overrides : MechOverrides) (pos_data : MechLayout) (mech : MechDesc)
    (alignment : Nat) (m : Mechanism)
    (h0 : 0 < pos_data.cv.length)
    (hok : instantiate id shared overrides pos_data mech alignment = .ok m)
    (k : Nat) (hk : k < mech.ions.length) (oion : IonShared)
    (hion : value_by_key shared.ion_data
        (resolveIonName overrides.ion_rebind ((mech.ions.getD k default).name))
      = some oion) :
    (ion_table m).getD k (("", default, none))
      = ((mech.ions.getD k default).name,
         ({ current_density := oion.iX,
            external_concentration := oion.Xi,
            internal_concentration := oion.Xo,
            ionic_charge := oion.charge } : IonStateView),
         some ((1 + k) * pos_data.cv.length)) := by
  obtain ⟨sts, vs, ix, hb, hv, hx, hmrec⟩ := instantiate_ok_spec id shared overrides
    pos_data mech alignment m h0 hok
  subst hmrec
  obtain ⟨_, hip, _, _, _⟩ := indexStage_ok_spec mech overrides.ion_rebind shared.ion_data
    pos_data.cv pos_data.multiplicity pos_data.cv.length
    (round_up pos_data.cv.length alignment) (!pos_data.multiplicity.isEmpty) ix
    (le_round_up _ _) hx
  have hlen := bindIons_ok_length _ _ _ _ hb
  have hst := bindIons_ok_getD _ _ _ _ k oion hb hk hion
  have hplen : ix.ion_ptrs.length = mech.ions.length := by rw [hip]; simp
  simp only [ion_table]
  rw [getD_zipWith _ _ _ _ _ default default hk
    (by rw [List.length_zipWith, hlen, hplen]; simpa using hk)]
  rw [getD_zipWith _ _ _ _ _ default 0 (by rw [hlen]; exact hk) (by rw [hplen]; exact hk)]
  rw [hst, hip, getD_range_map _ _ _ _ hk]

theorem init_mult_step_data (m : Mechanism) :
    (init_mult_step m).data
      = if m.mult_in_place
          then m.state_vars_h.foldl
            (fun d sOff => multiply_in_place d (sOff.getD 0) m.indices
              (m.ppack.multiplicity.getD 0) m.ppack.width) m.data
          else m.data := by
  unfold init_mult_step
  cases m.mult_in_place <;> simp

theorem init_mult_step_frame (m : Mechanism) :
    (init_mult_step m).indices = m.indices ∧
    (init_mult_step m).parameters_h = m.parameters_h ∧
    (init_mult_step m).state_vars_h = m.state_vars_h ∧
    (init_mult_step m).globals_h = m.globals_h ∧
    (init_mult_step m).ion_states_h = m.ion_states_h ∧
    (init_mult_step m).parameters_d = m.parameters_d ∧
    (init_mult_step m).state_vars_d = m.state_vars_d ∧
    (init_mult_step m).ion_states_d = m.ion_states_d ∧
    (init_mult_step m).ppack = m.ppack := by
  unfold init_mult_step
  cases m.mult_in_place <;>
    exact ⟨rfl, rfl, rfl, rfl, rfl, rfl, rfl, rfl, rfl⟩

/-- C8: for every schema and placement with at least one site, the buffers
of a successfully built instance have exactly the allocated sizes, and
every recorded chunk region (the weight chunk, each parameter and
state-variable chunk, the globals region, the node-index chunk, each ion
index chunk and the multiplicity chunk) lies within the bounds of its
single allocation. -/
theorem c8_buffer_writes_within_allocations (id : Nat) (shared : SharedState)
    (overrides : MechOverrides) (pos_data : MechLayout) (mech : MechDesc)
    (alignment : Nat) (m : Mechanism)
    (h0 : 0 < pos_data.cv.length)
    (hok : instantiate id shared overrides pos_data mech alignment = .ok m) :
    m.data.length
      = (mech.state_vars.length + mech.parameters.length + 1)
          * round_up pos_data.cv.length alignment + mech.globals.length ∧
    m.indices.length
      = ((if pos_data.multiplicity.isEmpty then 0 else 1) + mech.ions.length + 1)
          * round_up pos_data.cv.length alignment ∧
    (∀ o, m.ppack.weight = some o → o + pos_data.cv.length ≤ m.data.length) ∧
    (∀ x ∈ m.parameters_h, ∀ o, x = some o →
      o + pos_data.cv.length ≤ m.data.length) ∧
    (∀ x ∈ m.state_vars_h, ∀ o, x = some o →
      o + pos_data.cv.length ≤ m.data.length) ∧
    (∀ o, m.ppack.globals = some o → o + mech.globals.length ≤ m.data.length) ∧
    (∀ o, m.ppack.node_index = some o → o + pos_data.cv.length ≤ m.indices.length) ∧
    (∀ st ∈ m.ion_states_h, ∀ o, st.index = some o →
      o + pos_data.cv.length ≤ m.indices.length) ∧
    (∀ o, m.ppack.multiplicity = some o →
      o + pos_data.cv.length ≤ m.indices.length) := by
  obtain ⟨sts, vs, ix, hb, hv, hx, hmrec⟩ := instantiate_ok_spec id shared overrides
    pos_data mech alignment m h0 hok
  subst hmrec
  obtain ⟨hw0, hparams, hstates, hgp, hdlen, hglen⟩ := valueStage_ok_spec _ _ _ _ _ _ hv
  obtain ⟨hnp, hip, hmp, hilen, _⟩ := indexStage_ok_spec mech overrides.ion_rebind
    shared.ion_data pos_data.cv pos_data.multiplicity pos_data.cv.length
    (round_up pos_data.cv.length alignment) (!pos_data.multiplicity.isEmpty) ix
    (le_round_up _ _) hx
  have hwW : pos_data.cv.length ≤ round_up pos_data.cv.length alignment :=
    le_round_up _ _
  have hlen := bindIons_ok_length _ _ _ _ hb
  have hplen : ix.ion_ptrs.length = mech.ions.length := by rw [hip]; simp
  refine ⟨hdlen, ?_, ?_, ?_, ?_, ?_, ?_, ?_, ?_⟩
  · show ix.indices.length = _
    rw [hilen]
    cases hpe : pos_data.multiplicity.isEmpty <;> simp
  · intro o ho
    have ho2 : o = 0 := by
      rw [hw0] at ho
      exact (Option.some.inj ho).symm
    subst ho2
    show 0 + pos_data.cv.length ≤ vs.data.length
    rw [hdlen]
    have h1 : 1 * pos_data.cv.length
        ≤ (mech.state_vars.length + mech.parameters.length + 1)
            * round_up pos_data.cv.length alignment :=
      Nat.mul_le_mul (by omega) hwW
    omega
  · intro x hx2 o ho
    rw [hparams] at hx2
    simp only [List.mem_map, List.mem_range] at hx2
    obtain ⟨k, hk, hkx⟩ := hx2
    rw [← hkx] at ho
    have ho2 : o = (1 + k) * pos_data.cv.length := (Option.some.inj ho).symm
    subst ho2
    show _ ≤ vs.data.length
    rw [hdlen]
    have h2 : (1 + k) * pos_data.cv.length + pos_data.cv.length
        = (1 + k + 1) * pos_data.cv.length := by ring
    have h3 : (1 + k + 1) * pos_data.cv.length
        ≤ (mech.state_vars.length + mech.parameters.length + 1)
            * round_up pos_data.cv.length alignment :=
      Nat.mul_le_mul (by omega) hwW
    omega
  · intro x hx2 o ho
    rw [hstates] at hx2
    simp only [List.mem_map, List.mem_range] at hx2
    obtain ⟨k, hk, hkx⟩ := hx2
    rw [← hkx] at ho
    have ho2 : o = (1 + mech.parameters.length + k) * pos_data.cv.length :=
      (Option.some.inj ho).symm
    subst ho2
    show _ ≤ vs.data.length
    rw [hdlen]
    have h2 : (1 + mech.parameters.length + k) * pos_data.cv.length + pos_data.cv.length
        = (1 + mech.parameters.length + k + 1) * pos_data.cv.length := by ring
    have h3 : (1 + mech.parameters.length + k + 1) * pos_data.cv.length
        ≤ (mech.state_vars.length + mech.parameters.length + 1)
            * round_up pos_data.cv.length alignment :=
      Nat.mul_le_mul (by omega) hwW
    omega
  · intro o ho
    have ho2 : o = (1 + mech.parameters.length + mech.state_vars.length)
        * pos_data.cv.length := by
      rw [hgp] at ho
      exact (Option.some.inj ho).symm
    subst ho2
    show _ ≤ vs.data.length
    rw [hdlen]
    have h3 : (1 + mech.parameters.length + mech.state_vars.length) * pos_data.cv.length
        ≤ (mech.state_vars.length + mech.parameters.length + 1)
            * round_up pos_data.cv.length alignment :=
      Nat.mul_le_mul (by omega) hwW
    omega
  · intro o ho
    have ho2 : o = 0 := by
      rw [hnp] at ho
      exact (Option.some.inj ho).symm
    subst ho2
    show 0 + pos_data.cv.length ≤ ix.indices.length
    rw [hilen]
    have h3 : 1 * pos_data.cv.length
        ≤ ((if (!pos_data.multiplicity.isEmpty) = true then 1 else 0)
            + mech.ions.length + 1) * round_up pos_data.cv.length alignment :=
      Nat.mul_le_mul (by omega) hwW
    omega
  · intro st hst o ho
    have hidx : st.index ∈ ix.ion_ptrs.map some := by
      rw [← map_zipWith_index sts ix.ion_ptrs (by rw [hlen, hplen])]
      exact List.mem_map_of_mem ArbIonState.index hst
    rw [ho, hip] at hidx
    simp only [List.map_map, List.mem_map, List.mem_range] at hidx
    obtain ⟨k, hk, hkx⟩ := hidx
    have ho2 : o = (1 + k) * pos_data.cv.length := by
      have := Option.some.inj hkx
      exact this.symm
    subst ho2
    show _ ≤ ix.indices.length
    rw [hilen]
    have h2 : (1 + k) * pos_data.cv.length + pos_data.cv.length
        = (1 + k + 1) * pos_data.cv.length := by ring
    have h3 : (1 + k + 1) * pos_data.cv.length
        ≤ ((if (!pos_data.multiplicity.isEmpty) = true then 1 else 0)
            + mech.ions.length + 1) * round_up pos_data.cv.length alignment :=
      Nat.mul_le_mul (by omega) hwW
    omega
  · intro o ho
    rw [hmp] at ho
    cases hpe : pos_data.multiplicity.isEmpty with
    | true =>
      rw [hpe] at ho
      simp at ho
    | false =>
      rw [hpe] at ho
      simp only [Bool.not_false, if_true] at ho
      have ho2 : o = (1 + mech.ions.length) * pos_data.cv.length :=
        (Option.some.inj ho).symm
      subst ho2
      show _ ≤ ix.indices.length
      rw [hilen, hpe]
      simp only [Bool.not_false, if_true]
      have h2 : (1 + mech.ions.length) * pos_data.cv.length + pos_data.cv.length
          = (1 + mech.ions.length + 1) * pos_data.cv.length := by ring
      have h3 : (1 + mech.ions.length + 1) * pos_data.cv.length
          ≤ (1 + mech.ions.length + 1) * round_up pos_data.cv.length alignment :=
        Nat.mul_le_mul (by omega) hwW
      omega

/-- C8 witness: the bounds applied at the concrete three-site fixture. -/
theorem c8_buffer_writes_within_allocations_witness :
    0 < layC1.cv.length ∧
    instantiate 0 sharedEmpty ovEmpty layC1 mechC1 4 = .ok mC1 ∧
    mC1.data.length
      = (mechC1.state_vars.length + mechC1.parameters.length + 1)
          * round_up layC1.cv.length 4 + mechC1.globals.length :=
  ⟨by decide, by decide,
   (c8_buffer_writes_within_allocations 0 sharedEmpty ovEmpty layC1 mechC1 4 mC1
     (by decide) (by decide)).1⟩

/-- C9: the multiplicity scaling step of initialize leaves the index
buffer, every host pointer table, every device mirror and the parameter
pack unchanged, and within the value buffer it leaves every cell below the
first state-variable chunk (the weight and parameter chunks) and every
cell at or beyond the globals offset unchanged. -/
theorem c9_scaling_step_frame (id : Nat) (shared : SharedState)
    (overrides : MechOverrides) (pos_data : MechLayout) (mech : MechDesc)
    (alignment : Nat) (m : Mechanism)
    (h0 : 0 < pos_data.cv.length)
    (hok : instantiate id shared overrides pos_data mech alignment = .ok m) :
    ((init_mult_step m).indices = m.indices ∧
     (init_mult_step m).parameters_h = m.parameters_h ∧
     (init_mult_step m).state_vars_h = m.state_vars_h ∧
     (init_mult_step m).globals_h = m.globals_h ∧
     (init_mult_step m).ion_states_h = m.ion_states_h ∧
     (init_mult_step m).parameters_d = m.parameters_d ∧
     (init_mult_step m).state_vars_d = m.state_vars_d ∧
     (init_mult_step m).ion_states_d = m.ion_states_d ∧
     (init_mult_step m).ppack = m.ppack) ∧
    (∀ o d, o < (1 + mech.parameters.length) * pos_data.cv.length →
      (init_mult_step m).data.getD o d = m.data.getD o d) ∧
    (∀ o d,
      (1 + mech.parameters.length + mech.state_vars.length) * pos_data.cv.length ≤ o →
      (init_mult_step m).data.getD o d = m.data.getD o d) := by
  obtain ⟨sts, vs, ix, hb, hv, hx, hmrec⟩ := instantiate_ok_spec id shared overrides
    pos_data mech alignment m h0 hok
  obtain ⟨hw0, hparams, hstates, hgp, hdlen, hglen⟩ := valueStage_ok_spec _ _ _ _ _ _ hv
  refine ⟨init_mult_step_frame _, ?_, ?_⟩
  · intro o d ho
    rw [init_mult_step_data]
    cases hmul : m.mult_in_place with
    | false => rw [if_neg (by simp)]
    | true =>
      rw [if_pos rfl]
      have hsv : m.state_vars_h = (List.range mech.state_vars.length).map
          (fun k => some ((1 + mech.parameters.length + k) * pos_data.cv.length)) := by
        rw [hmrec]
        exact hstates
      have hpw : m.ppack.width = pos_data.cv.length := by rw [hmrec]
      rw [hsv, hpw]
      refine foldl_multiply_range_out m.indices (m.ppack.multiplicity.getD 0)
        pos_data.cv.length mech.parameters.length o d mech.state_vars.length m.data ?_
      intro k hk
      left
      have h3 : (1 + mech.parameters.length) * pos_data.cv.length
          ≤ (1 + mech.parameters.length + k) * pos_data.cv.length :=
        Nat.mul_le_mul_right _ (by omega)
      omega
  · intro o d ho
    rw [init_mult_step_data]
    cases hmul : m.mult_in_place with
    | false => rw [if_neg (by simp)]
    | true =>
      rw [if_pos rfl]
      have hsv : m.state_vars_h = (List.range mech.state_vars.length).map
          (fun k => some ((1 + mech.parameters.length + k) * pos_data.cv.length)) := by
        rw [hmrec]
        exact hstates
      have hpw : m.ppack.width = pos_data.cv.length := by rw [hmrec]
      rw [hsv, hpw]
      refine foldl_multiply_range_out m.indices (m.ppack.multiplicity.getD 0)
        pos_data.cv.length mech.parameters.length o d mech.state_vars.length m.data ?_
      intro k hk
      right
      have h2 : (1 + mech.parameters.length + k) * pos_data.cv.length
            + pos_data.cv.length
          = (1 + mech.parameters.length + k + 1) * pos_data.cv.length := by ring
      have h3 : (1 + mech.parameters.length + k + 1) * pos_data.cv.length
          ≤ (1 + mech.parameters.length + mech.state_vars.length)
              * pos_data.cv.length :=
        Nat.mul_le_mul_right _ (by omega)
      omega

/-- C9 witness: the frame conditions applied at the concrete multiplicity
fixture, checked at the weight cell (offset 0) and at an offset beyond the
state chunks. -/
theorem c9_scaling_step_frame_witness :
    0 < layC7.cv.length ∧
    instantiate 0 sharedEmpty ovEmpty layC7 mechC7 1 = .ok mC7 ∧
    (init_mult_step mC7).indices = mC7.indices ∧
    (init_mult_step mC7).data.getD 0 none = mC7.data.getD 0 none :=
  ⟨by decide, by decide,
   (c9_scaling_step_frame 0 sharedEmpty ovEmpty layC7 mechC7 1 mC7 (by decide)
     (by decide)).1.1,
   (c9_scaling_step_frame 0 sharedEmpty ovEmpty layC7 mechC7 1 mC7 (by decide)
     (by decide)).2.1 0 none (by decide)⟩

/-- C7: when the placement carries no multiplicity sequence the scaling
step leaves the buffer produced by the initialization kernel unchanged;
when it carries one (of length width), every state-variable cell holding
post-init value x at site i ends holding x times the multiplicity of site
i after initialize. -/
theorem c7_initialize_multiplicity_scaling (id : Nat) (shared : SharedState)
    (overrides : MechOverrides) (pos_data : MechLayout) (mech : MechDesc)
    (alignment : Nat) (m : Mechanism)
    (init_kernel : List (Option ℚ) → List (Option ℚ))
    (h0 : 0 < pos_data.cv.length)
    (hok : instantiate id shared overrides pos_data mech alignment = .ok m) :
    (pos_data.multiplicity = [] →
      (mechanism_init init_kernel m).data = init_kernel m.data) ∧
    (pos_data.multiplicity.length = pos_data.cv.length →
      (init_kernel m.data).length = m.data.length →
      ∀ j, j < mech.state_vars.length →
      ∀ i, i < pos_data.cv.length →
      ∀ x : ℚ,
        (init_kernel m.data).getD
          ((1 + mech.parameters.length + j) * pos_data.cv.length + i) none = some x →
        (mechanism_init init_kernel m).data.getD
            ((1 + mech.parameters.length + j) * pos_data.cv.length + i) none
          = some (x * ((pos_data.multiplicity.getD i 0 : Int) : ℚ))) := by
  obtain ⟨sts, vs, ix, hb, hv, hx, hmrec⟩ := instantiate_ok_spec id shared overrides
    pos_data mech alignment m h0 hok
  obtain ⟨hw0, hparams, hstates, hgp, hdlen, hglen⟩ := valueStage_ok_spec _ _ _ _ _ _ hv
  obtain ⟨hnp, hip, hmp, hilen, hmc⟩ := indexStage_ok_spec mech overrides.ion_rebind
    shared.ion_data pos_data.cv pos_data.multiplicity pos_data.cv.length
    (round_up pos_data.cv.length alignment) (!pos_data.multiplicity.isEmpty) ix
    (le_round_up _ _) hx
  constructor
  · intro hm
    have hmul : m.mult_in_place = false := by
      rw [hmrec, hm]
      rfl
    show (init_mult_step { m with data := init_kernel m.data }).data = _
    rw [init_mult_step_data]
    rw [if_neg (by simp [hmul])]
  · intro hml hklen j hj i hi x hx2
    have hne : pos_data.multiplicity.isEmpty = false := by
      cases hme : pos_data.multiplicity with
      | nil => rw [hme] at hml; simp at hml; omega
      | cons a as => rfl
    have hmul : m.mult_in_place = true := by
      rw [hmrec, hne]
      rfl
    show (init_mult_step { m with data := init_kernel m.data }).data.getD _ _ = _
    rw [init_mult_step_data]
    rw [if_pos (by simp [hmul])]
    have hsv : m.state_vars_h = (List.range mech.state_vars.length).map
        (fun k => some ((1 + mech.parameters.length + k) * pos_data.cv.length)) := by
      rw [hmrec]
      exact hstates
    have hpw : m.ppack.width = pos_data.cv.length := by rw [hmrec]
    have hpm : m.ppack.multiplicity
        = some ((1 + mech.ions.length) * pos_data.cv.length) := by
      rw [hmrec]
      show ix.mult_ptr = _
      rw [hmp, hne]
      rfl
    have hq : (1 + mech.parameters.length + j) * pos_data.cv.length + i
        < (init_kernel m.data).length := by
      rw [hklen]
      have hdl : m.data.length
          = (mech.state_vars.length + mech.parameters.length + 1)
              * round_up pos_data.cv.length alignment + mech.globals.length := by
        rw [hmrec]
        exact hdlen
      rw [hdl]
      have h2 : (1 + mech.parameters.length + j) * pos_data.cv.length
            + pos_data.cv.length
          = (1 + mech.parameters.length + j + 1) * pos_data.cv.length := by ring
      have h3 : (1 + mech.parameters.length + j + 1) * pos_data.cv.length
          ≤ (mech.state_vars.length + mech.parameters.length + 1)
              * round_up pos_data.cv.length alignment :=
        Nat.mul_le_mul (by omega) (le_round_up _ _)
      omega
    rw [show ({ m with data := init_kernel m.data } : Mechanism).state_vars_h
        = m.state_vars_h from rfl, hsv]
    rw [show ({ m with data := init_kernel m.data } : Mechanism).ppack = m.ppack from rfl]
    rw [hpw, hpm]
    rw [show ({ m with data := init_kernel m.data } : Mechanism).indices = m.indices from rfl]
    rw [show ({ m with data := init_kernel m.data } : Mechanism).data
        = init_kernel m.data from rfl]
    rw [foldl_multiply_range_hit m.indices
      ((some ((1 + mech.ions.length) * pos_data.cv.length)).getD 0)
      pos_data.cv.length mech.parameters.length none mech.state_vars.length
      (init_kernel m.data) j i hj hi hq]
    rw [hx2]
    simp only [Option.getD_some]
    have hic : m.indices.getD
        ((1 + mech.ions.length) * pos_data.cv.length + i) none
        = some (pos_data.multiplicity.getD i 0) := by
      rw [hmrec]
      show ix.indices.getD _ _ = _
      exact hmc (by rw [hne]; rfl) i hi (by omega)
    rw [hic]
    rfl

/-- C7 witness: one state variable on one site with multiplicity 3 and a
kernel writing post-init value 5 into the state cell: after initialize the
cell holds 5 times the site multiplicity. -/
theorem c7_initialize_multiplicity_scaling_witness :
    0 < layC7.cv.length ∧
    instantiate 0 sharedEmpty ovEmpty layC7 mechC7 1 = .ok mC7 ∧
    layC7.multiplicity.length = layC7.cv.length ∧
    (kerC7 mC7.data).length = mC7.data.length ∧
    (kerC7 mC7.data).getD
      ((1 + mechC7.parameters.length + 0) * layC7.cv.length + 0) none = some 5 ∧
    (mechanism_init kerC7 mC7).data.getD
        ((1 + mechC7.parameters.length + 0) * layC7.cv.length + 0) none
      = some (5 * ((layC7.multiplicity.getD 0 0 : Int) : ℚ)) :=
  ⟨by decide, by decide, by decide, by decide, by decide,
   (c7_initialize_multiplicity_scaling 0 sharedEmpty ovEmpty layC7 mechC7 1 mC7 kerC7
     (by decide) (by decide)).2 (by decide) (by decide) 0 (by decide) 0 (by decide) 5
     (by decide)⟩

/-- C5 witness: the amended statement applied at the concrete fixture with
ion x rebound to ca. -/
theorem c5_ion_table_swaps_concentrations_witness :
    0 < layW1.cv.length ∧
    instantiate 0 sharedC5 ovC5 layW1 mechC5 1 = .ok mC5 ∧
    (ion_table mC5).getD 0 (("", default, none))
      = ((mechC5.ions.getD 0 default).name,
         ({ current_density := ionCa.iX,
            external_concentration := ionCa.Xi,
            internal_concentration := ionCa.Xo,
            ionic_charge := ionCa.charge } : IonStateView),
         some ((1 + 0) * layW1.cv.length)) :=
  ⟨by decide, by decide,
   c5_ion_table_swaps_concentrations 0 sharedC5 ovC5 layW1 mechC5 1 mC5 (by decide)
     (by decide) 0 (by decide) ionCa (by decide)⟩

end ArborGpu
